import Mathlib

/-!
Shallow embedding of `src/js/components/core/FooTable.Sorting.js`, the sorting
component of the FooTable plugin: cell values, the default sorters, the column
and sorting-configuration state, the `predraw`/`preajax` hooks and the
`_sort`/`_generate`/`_direction`/`_onSortClicked` operations.
-/

namespace FooTable

/-- A JavaScript value as it appears in a table cell: a string, a number, or
`undefined` (the value of an out-of-range cell access). -/
inductive JSVal where
  | str : String → JSVal
  | num : Int → JSVal
  | undefined : JSVal
deriving DecidableEq

/-- JS `toLowerCase` on a string: each character lower-cased. -/
def strLower (s : String) : String :=
  ⟨s.data.map Char.toLower⟩

/-- The lower-casing step of the text sorter: `toLowerCase` is applied to an
operand only when `typeof` reports a string, every other value passes through. -/
def jsToLower : JSVal → JSVal
  | .str s => .str (strLower s)
  | v => v

/-- JS strict equality on cell values: true only when type and value agree. -/
def jsStrictEq : JSVal → JSVal → Bool
  | .str s, .str t => s == t
  | .num a, .num b => a == b
  | .undefined, .undefined => true
  | _, _ => false

/-- JS numeric coercion of a string, as used by relational comparison on mixed
operands; `none` models NaN. -/
def strToNum (s : String) : Option Int :=
  if s = "" then some 0 else s.toInt?

/-- Lexicographic comparison of character sequences by code point, the JS
ordering of strings: a proper prefix is smaller, otherwise the first
differing position decides. -/
def charListLt : List Char → List Char → Bool
  | _, [] => false
  | [], _ :: _ => true
  | a :: as, b :: bs =>
    if a.toNat < b.toNat then true
    else if b.toNat < a.toNat then false
    else charListLt as bs

/-- JS `<` on two strings: lexicographic by code point. -/
def strLt (s t : String) : Bool :=
  charListLt s.data t.data

/-- JS relational `<` on cell values: two strings compare lexicographically,
otherwise both operands coerce to numbers and any NaN makes the comparison
false. -/
def jsLt : JSVal → JSVal → Bool
  | .str s, .str t => strLt s t
  | .num a, .num b => decide (a < b)
  | .str s, .num b =>
    match strToNum s with
    | some a => decide (a < b)
    | none => false
  | .num a, .str t =>
    match strToNum t with
    | some b => decide (a < b)
    | none => false
  | _, _ => false

/-- The sorter `FooTable.Defaults.prototype.sorters.text`: lower-cases each operand when it
is a string, then returns 0 on strict equality, -1 when the first compares
less, 1 otherwise. -/
def textSorter (a b : JSVal) : Int :=
  if jsStrictEq (jsToLower a) (jsToLower b) then 0
  else if jsLt (jsToLower a) (jsToLower b) then -1
  else 1

/-- The sorter `FooTable.Defaults.prototype.sorters.number`: `a - b`. Only numeric operands
are modelled; on other operands the JS subtraction yields NaN, which no claim
exercises. -/
def numberSorter (a b : JSVal) : Int :=
  match a, b with
  | .num x, .num y => x - y
  | _, _ => 0

/-- Lookup in the default sorter registry as performed at column construction:
`sorters[type] || sorters.text` (an unknown type tag falls back to the text
sorter). -/
def sorters (t : String) : JSVal → JSVal → Int :=
  if t = "text" then textSorter
  else if t = "number" then numberSorter
  else textSorter

/-- A table row: the values of its cells, indexed by column index. -/
structure Row where
  cells : List JSVal
deriving DecidableEq

/-- The value read by the sort comparator, `row.cells[i].value`. -/
def cellValue (r : Row) (i : Nat) : JSVal :=
  r.cells.getD i .undefined

/-- A column together with the sort-related fields the Sorting component adds:
its comparator, current direction, and the sortable/sorted flags. -/
structure Column where
  name : String
  index : Nat
  sorter : JSVal → JSVal → Int
  direction : Option String
  sortable : Bool := true
  sorted : Bool := false

/-- The sorting options object (`FooTable.Defaults.prototype.sorting`, the
component's `this.o`); `column` holds the resolved column by its position in
the columns array, modelling the object reference. -/
structure SortConfig where
  enabled : Bool
  column : Option Nat
  direction : Option String
deriving DecidableEq

/-- The sorting fields added to `FooTable.RequestData`. -/
structure RequestData where
  sortColumn : Option String
  sortDirection : Option String
deriving DecidableEq

/-- The table state the Sorting component reads and mutates: the column array,
the row array, the remote-mode flag, the sorting options and the outgoing
request data. -/
structure TableState where
  columns : List Column
  rows : List Row
  ajaxEnabled : Bool
  o : SortConfig
  requestData : RequestData

/-- A column reference as accepted by `sort`: a column name, a column index, or
a column object (identified by its position in the array). -/
inductive ColRef where
  | byName : String → ColRef
  | byIndex : Nat → ColRef
  | byCol : Nat → ColRef

/-- Modelled from the spec: the table widget's column lookup
(`FooTable.Instance#columns.get`, an external collaborator not under `src/`)
resolves a name, a positional index or a column object to the matching column,
yielding null when nothing matches. -/
def columnsGet (cols : List Column) : ColRef → Option Nat
  | .byName s => cols.findIdx? fun c => c.name == s
  | .byIndex n => cols.findIdx? fun c => c.index == n
  | .byCol i => if i < cols.length then some i else none

/-- Modelled from the spec: the same column lookup applied to an
already-resolved column object or null, as in `columns.get(sorter.column)`. -/
def columnsGetObj (cols : List Column) : Option Nat → Option Nat
  | some i => if i < cols.length then some i else none
  | none => none

/-- The descriptor passed to the `change.ft.sorting` event (`FooTable.Sorter`,
constructed afresh in `_sort`); listeners receive it by reference and may
mutate its fields. -/
structure Sorter where
  column : Option Nat
  direction : String

/-- A `change.ft.sorting` listener: given the sorter it may call
`preventDefault` (the returned Bool) and may mutate the sorter in place (the
returned Sorter). -/
abbrev Listener : Type := Sorter → Bool × Sorter

/-- The listener that neither cancels nor mutates the sorter. -/
def noListener : Listener := fun s => (false, s)

/-- Embeds `FooTable.Sorting._direction`: a string equal to ASC or DESC passes
through, any other value (a different string, or a missing argument) becomes
ASC. -/
def _direction : Option String → String
  | some s => if s = "ASC" ∨ s = "DESC" then s else "ASC"
  | none => "ASC"

/-- Insert an element into a sorted list, placing it before the first element
it does not compare after (the position a stable comparison sort assigns). -/
def insertSorted (c : α → α → Int) (x : α) : List α → List α
  | [] => [x]
  | y :: ys => if c x y ≤ 0 then x :: y :: ys else y :: insertSorted c x ys

/-- Model of `Array.prototype.sort` with a user comparator: a stable
comparison sort, realised as insertion sort. -/
def insertionSort (c : α → α → Int) : List α → List α
  | [] => []
  | x :: xs => insertSorted c x (insertionSort c xs)

/-- Embeds `FooTable.Sorting.predraw`: a no-op when sorting is disabled, remote data
is in effect, or no column/direction is active; otherwise sorts `rows.array`
with the active column's sorter on the cell values at that column's index —
ascending applies `sorter(a, b)`, descending applies `sorter(b, a)`. Returns
the resulting row array. -/
def predrawRows (st : TableState) : List Row :=
  match st.o.column, st.o.direction with
  | some ci, some d =>
    if st.o.enabled = false ∨ st.ajaxEnabled = true ∨ d = "" then st.rows
    else
      match st.columns[ci]? with
      | some col =>
        insertionSort
          (fun a b =>
            if d = "ASC" then col.sorter (cellValue a col.index) (cellValue b col.index)
            else col.sorter (cellValue b col.index) (cellValue a col.index))
          st.rows
      | none => st.rows
  | _, _ => st.rows

/-- Embeds `FooTable.Sorting.preajax`: a no-op when sorting is disabled; otherwise
writes `sortColumn = this.o.column.name` and `sortDirection = this.o.direction`
onto the outgoing request. The read of `.name` has no null guard, so a null
active column throws a TypeError, modelled by `none`. -/
def preajax (st : TableState) (data : RequestData) : Option RequestData :=
  if st.o.enabled = false then some data
  else
    match st.o.column with
    | none => none
    | some ci =>
      match st.columns[ci]? with
      | some col => some { sortColumn := some col.name, sortDirection := st.o.direction }
      | none => none

/-- Modelled from the spec: `FooTable.Instance#update` (the table widget's
refresh cycle, an external collaborator not under `src/`) — in remote mode it
populates the outgoing request via the `preajax` hook and performs no local
reordering; in local mode it redraws, running the `predraw` hook which sorts
the rows. `none` propagates an exception thrown inside the cycle. -/
def update (st : TableState) : Option TableState :=
  if st.ajaxEnabled = true then
    (preajax st st.requestData).map fun rd => { st with requestData := rd }
  else
    some { st with rows := predrawRows st }

/-- The `$.each` loop over `columns.array` run by `_sort` and `_generate`: the
target column (compared by object identity, i.e. position, with `i` the
position of the list's first element) receives the active direction and every
other column's direction is reset to null. -/
def applyDirections (dir : Option String) (target : Option Nat) : Nat → List Column → List Column
  | _, [] => []
  | i, c :: cs =>
    (if target = some i then { c with direction := dir } else { c with direction := none })
      :: applyDirections dir target (i + 1) cs

/-- The observable outcome of a sort invocation: the returned promise resolved
with the final table state and a flag recording whether `changed.ft.sorting`
fired, or an exception that escaped the cycle. -/
inductive SortOutcome where
  | resolved : TableState → Bool → SortOutcome
  | errored : SortOutcome

/-- Embeds `FooTable.Sorting._sort`: constructs the `Sorter` from the resolved column
and normalized direction, raises the cancellable `change.ft.sorting` event
(the listener may cancel and may mutate the sorter), returns a resolved
promise with no state change on cancellation; otherwise commits `this.o` from
the possibly-mutated sorter (re-resolving the column and re-normalizing the
direction), runs the update cycle, then rewrites every column's direction and
raises `changed.ft.sorting`. -/
def _sort (st : TableState) (column : ColRef) (dir : Option String) (redraw : Bool)
    (listener : Listener) : SortOutcome :=
  let sorter0 : Sorter := ⟨columnsGet st.columns column, _direction dir⟩
  let r := listener sorter0
  if r.1 = true then .resolved st false
  else
    let st1 : TableState :=
      { st with
          o := { enabled := st.o.enabled,
                 column := columnsGetObj st.columns r.2.column,
                 direction := some (_direction (some r.2.direction)) } }
    match (if redraw then update st1 else some st1) with
    | none => .errored
    | some st2 =>
      .resolved
        { st2 with columns := applyDirections st2.o.direction st2.o.column 0 st2.columns }
        true

/-- Embeds `FooTable.Sorting.sort`, the public entry point: `_sort` with a redraw. -/
def sort (st : TableState) (column : ColRef) (dir : Option String)
    (listener : Listener) : SortOutcome :=
  _sort st column dir true listener

/-- Embeds `FooTable.Sorting._generate`, the initial UI-state resolution: resolves the
configured starting column (falling back to the first column flagged `sorted`),
resolves its direction with precedence configured direction, then the column's
own declared direction, then ASC (null when no column resolved), and rewrites
every column's direction to enforce exclusivity. -/
def _generate (st : TableState) (optColumn : Option ColRef) (optDirection : Option String) :
    TableState :=
  let rcol : Option Nat :=
    match optColumn.bind (columnsGet st.columns) with
    | some i => some i
    | none => st.columns.findIdx? fun c => c.sorted
  let rdir : Option String :=
    match rcol with
    | none => none
    | some i =>
      match optDirection with
      | some d => some d
      | none =>
        match st.columns[i]?.bind Column.direction with
        | some d => some d
        | none => some "ASC"
  { st with
      o := { enabled := st.o.enabled, column := rcol, direction := rdir },
      columns := applyDirections rdir rcol 0 st.columns }

/-- The visual sort marking of a header cell: unmarked, or carrying the
`footable-asc` / `footable-desc` class. -/
inductive HeaderMark where
  | unmarked : HeaderMark
  | asc : HeaderMark
  | desc : HeaderMark
deriving DecidableEq

/-- The direction computed by `FooTable.Sorting._onSortClicked` from the
clicked header's current visual state: a marked header toggles (descending
requests ASC, ascending requests DESC) and an unmarked header requests ASC. -/
def clickDirection (m : HeaderMark) : String :=
  if m = .asc ∨ m = .desc then (if m = .desc then "ASC" else "DESC") else "ASC"

/-! ## Helper lemmas -/

/-- Inserting into a list whose adjacent pairs are sorted by the comparator
preserves that property, provided the comparator is total. -/
theorem chain'_insertSorted (c : α → α → Int)
    (htot : ∀ a b, c a b ≤ 0 ∨ c b a ≤ 0) (x : α) (l : List α)
    (h : List.Chain' (fun a b => c a b ≤ 0) l) :
    List.Chain' (fun a b => c a b ≤ 0) (insertSorted c x l) := by
  induction l with
  | nil => simp [insertSorted]
  | cons y ys ih =>
    by_cases hxy : c x y ≤ 0
    · rw [insertSorted, if_pos hxy]
      exact List.chain'_cons.mpr ⟨hxy, h⟩
    · rw [insertSorted, if_neg hxy]
      rw [List.chain'_cons']
      have hyx : c y x ≤ 0 := (htot x y).resolve_left hxy
      refine ⟨?_, ih h.tail⟩
      intro z hz
      cases ys with
      | nil =>
        simp [insertSorted] at hz
        exact hz ▸ hyx
      | cons w ws =>
        by_cases hxw : c x w ≤ 0
        · rw [insertSorted, if_pos hxw] at hz
          simp at hz
          exact hz ▸ hyx
        · rw [insertSorted, if_neg hxw] at hz
          simp at hz
          exact hz ▸ (List.chain'_cons.mp h).1

/-- Every adjacent pair of the insertion-sorted list is ordered by the
comparator, provided the comparator is total. -/
theorem chain'_insertionSort (c : α → α → Int)
    (htot : ∀ a b, c a b ≤ 0 ∨ c b a ≤ 0) (l : List α) :
    List.Chain' (fun a b => c a b ≤ 0) (insertionSort c l) := by
  induction l with
  | nil => simp [insertionSort]
  | cons x xs ih => exact chain'_insertSorted c htot x _ ih

/-- Elementwise description of the direction-rewriting loop. -/
theorem applyDirections_getElem? (dir : Option String) (target : Option Nat) :
    ∀ (cs : List Column) (i j : Nat),
      (applyDirections dir target i cs)[j]? =
        cs[j]?.map fun cc =>
          if target = some (i + j) then { cc with direction := dir }
          else { cc with direction := none } := by
  intro cs
  induction cs with
  | nil => intro i j; simp [applyDirections]
  | cons c cs ih =>
    intro i j
    cases j with
    | zero => simp [applyDirections]
    | succ j =>
      have h := ih (i + 1) j
      simp only [applyDirections, List.getElem?_cons_succ, h]
      have : i + 1 + j = i + (j + 1) := by omega
      rw [this]

/-- With a target and a present direction, the loop leaves exactly the target
position with a non-null direction, when the target is in range. -/
theorem applyDirections_countP_some (d : String) (t : Nat) :
    ∀ (cs : List Column) (i : Nat),
      (applyDirections (some d) (some t) i cs).countP (fun c => c.direction.isSome) =
        if i ≤ t ∧ t < i + cs.length then 1 else 0 := by
  intro cs
  induction cs with
  | nil =>
    intro i
    simp only [applyDirections, List.countP_nil, List.length_nil]
    rw [if_neg (by omega)]
  | cons c cs ih =>
    intro i
    simp only [applyDirections, List.countP_cons, ih, List.length_cons]
    by_cases hit : t = i
    · subst hit
      rw [if_pos rfl, if_neg (by omega : ¬ (t + 1 ≤ t ∧ t < t + 1 + cs.length)),
        if_pos (by omega : t ≤ t ∧ t < t + (cs.length + 1))]
      simp
    · rw [if_neg (by simp [hit] : ¬ ((some t : Option Nat) = some i))]
      simp only [Option.isSome_none, Bool.false_eq_true, if_false, Nat.add_zero]
      split_ifs <;> omega

/-- Without a target, the loop nulls every column's direction. -/
theorem applyDirections_countP_noTarget (dir : Option String) :
    ∀ (cs : List Column) (i : Nat),
      (applyDirections dir none i cs).countP (fun c => c.direction.isSome) = 0 := by
  intro cs
  induction cs with
  | nil => intro i; simp [applyDirections]
  | cons c cs ih => intro i; simp [applyDirections, List.countP_cons, ih]

/-- With a null direction, the loop also leaves every direction null. -/
theorem applyDirections_countP_dirNone (t : Nat) :
    ∀ (cs : List Column) (i : Nat),
      (applyDirections none (some t) i cs).countP (fun c => c.direction.isSome) = 0 := by
  intro cs
  induction cs with
  | nil => intro i; simp [applyDirections]
  | cons c cs ih =>
    intro i
    simp only [applyDirections, ite_self, List.countP_cons, ih]
    simp

/-- The loop never leaves more than one column with a non-null direction. -/
theorem applyDirections_countP_le_one (dir : Option String) (target : Option Nat)
    (cs : List Column) (i : Nat) :
    (applyDirections dir target i cs).countP (fun c => c.direction.isSome) ≤ 1 := by
  cases target with
  | none => rw [applyDirections_countP_noTarget]; omega
  | some t =>
    cases dir with
    | none => rw [applyDirections_countP_dirNone]; omega
    | some d => rw [applyDirections_countP_some]; split_ifs <;> omega

/-- A resolved column-object lookup is a valid position. -/
theorem columnsGetObj_lt (cols : List Column) (oc : Option Nat) (i : Nat)
    (h : columnsGetObj cols oc = some i) : i < cols.length := by
  cases oc with
  | none => simp [columnsGetObj] at h
  | some j =>
    by_cases hj : j < cols.length
    · simp only [columnsGetObj, if_pos hj, Option.some.injEq] at h
      exact h ▸ hj
    · simp [columnsGetObj, hj] at h

/-- The update cycle never touches the sorting options or the columns. -/
theorem update_preserves (st st2 : TableState) (h : update st = some st2) :
    st2.o = st.o ∧ st2.columns = st.columns := by
  unfold update at h
  split_ifs at h
  · cases hp : preajax st st.requestData with
    | none => rw [hp] at h; simp at h
    | some rd =>
      rw [hp] at h
      simp only [Option.map, Option.some.injEq] at h
      subst h
      exact ⟨rfl, rfl⟩
  · simp only [Option.some.injEq] at h
    subst h
    exact ⟨rfl, rfl⟩

/-- In remote mode the update cycle never touches the rows. -/
theorem update_ajax_rows (st st2 : TableState) (haj : st.ajaxEnabled = true)
    (h : update st = some st2) : st2.rows = st.rows := by
  unfold update at h
  rw [if_pos haj] at h
  cases hp : preajax st st.requestData with
  | none => rw [hp] at h; simp at h
  | some rd =>
    rw [hp] at h
    simp only [Option.map, Option.some.injEq] at h
    subst h
    rfl

/-- The hook `predraw` is a no-op when sorting is disabled. -/
theorem predrawRows_disabled (st : TableState) (h : st.o.enabled = false) :
    predrawRows st = st.rows := by
  unfold predrawRows
  split
  · rw [if_pos (Or.inl h)]
  · rfl

/-- The hook `preajax` is a no-op when sorting is disabled. -/
theorem preajax_disabled (st : TableState) (d : RequestData) (h : st.o.enabled = false) :
    preajax st d = some d := by
  simp [preajax, h]

/-- The whole update cycle leaves the state untouched when sorting is
disabled: both hooks are guarded. -/
theorem update_disabled (s2 : TableState) (h : s2.o.enabled = false) :
    update s2 = some s2 := by
  unfold update
  split_ifs with haj
  · rw [preajax_disabled _ _ h]
    rfl
  · rw [predrawRows_disabled _ h]

/-- Inversion of a completed, non-cancelled `_sort`: the committed options come
from the listener-returned sorter (column re-resolved, direction
re-normalized) and the final columns are the direction-rewriting loop applied
to the original columns. -/
theorem _sort_resolved_inv (st : TableState) (column : ColRef) (dir : Option String)
    (redraw : Bool) (listener : Listener) (st' : TableState)
    (h : _sort st column dir redraw listener = .resolved st' true) :
    st'.o.column =
      columnsGetObj st.columns
        (listener ⟨columnsGet st.columns column, _direction dir⟩).2.column ∧
    st'.o.direction =
      some (_direction
        (some (listener ⟨columnsGet st.columns column, _direction dir⟩).2.direction)) ∧
    st'.columns = applyDirections st'.o.direction st'.o.column 0 st.columns := by
  simp only [_sort] at h
  split at h
  · simp at h
  · split at h
    · simp at h
    · rename_i hnc st2 heq
      simp only [SortOutcome.resolved.injEq, and_true] at h
      subst h
      have hpres : st2.o = ({ st with
          o := { enabled := st.o.enabled,
                 column := columnsGetObj st.columns
                   (listener ⟨columnsGet st.columns column, _direction dir⟩).2.column,
                 direction := some (_direction (some
                   (listener ⟨columnsGet st.columns column, _direction dir⟩).2.direction)) } }
            : TableState).o ∧
          st2.columns = st.columns := by
        cases redraw with
        | true =>
          rw [if_pos rfl] at heq
          exact update_preserves _ _ heq
        | false =>
          rw [if_neg (by simp)] at heq
          simp only [Option.some.injEq] at heq
          subst heq
          exact ⟨rfl, rfl⟩
      refine ⟨?_, ?_, ?_⟩
      · simpa using congrArg SortConfig.column hpres.1
      · simpa using congrArg SortConfig.direction hpres.1
      · rw [hpres.2]

/-! ## Concrete example states -/

/-- A one-column local table with sorting enabled and no active sort. -/
def exSt : TableState :=
  { columns := [{ name := "a", index := 0, sorter := textSorter, direction := none }],
    rows := [⟨[.str "x"]⟩],
    ajaxEnabled := false,
    o := { enabled := true, column := none, direction := none },
    requestData := ⟨none, none⟩ }

/-- A listener that cancels the sort without touching the sorter. -/
def cancelListener : Listener := fun s => (true, s)

/-! ## Claims -/

/-- C2: when a `change.ft.sorting` listener cancels, `_sort` aborts with no
state change at all — the sorting options, every column's direction and the
row order are exactly the input state's — `changed.ft.sorting` never fires,
and the returned promise is resolved, not rejected. -/
theorem cancelled_sort_changes_nothing (st : TableState) (column : ColRef)
    (dir : Option String) (redraw : Bool) (listener : Listener)
    (hc : (listener ⟨columnsGet st.columns column, _direction dir⟩).1 = true) :
    _sort st column dir redraw listener = .resolved st false := by
  simp only [_sort, hc]
  simp

/-- Witness for C2 at a concrete table and a cancelling listener. -/
theorem cancelled_sort_changes_nothing_witness :
    _sort exSt (.byName "a") (some "DESC") true cancelListener = .resolved exSt false :=
  cancelled_sort_changes_nothing exSt (.byName "a") (some "DESC") true cancelListener rfl

/-- C4: a direction other than the literals ASC and DESC normalizes to ASC,
an omitted direction normalizes to ASC, and a sort invoked with such a
direction is indistinguishable — same outcome, state and row order — from one
with the direction omitted. -/
theorem invalid_direction_normalizes_to_asc (st : TableState) (column : ColRef)
    (listener : Listener) (s : String) (hs : ¬ (s = "ASC" ∨ s = "DESC")) :
    _direction (some s) = "ASC" ∧ _direction none = "ASC" ∧
      _sort st column (some s) true listener = _sort st column none true listener := by
  have h1 : _direction (some s) = "ASC" := by simp [_direction, hs]
  refine ⟨h1, rfl, ?_⟩
  have h2 : (if s = "ASC" ∨ s = "DESC" then s else "ASC") = "ASC" := if_neg hs
  simp only [_sort, _direction, h2]

/-- Witness for C4: direction "sideways" behaves as an omitted direction. -/
theorem invalid_direction_normalizes_to_asc_witness :
    _direction (some "sideways") = "ASC" ∧ _direction none = "ASC" ∧
      _sort exSt (.byName "a") (some "sideways") true noListener =
        _sort exSt (.byName "a") none true noListener :=
  invalid_direction_normalizes_to_asc exSt (.byName "a") noListener "sideways" (by decide)

/-- C9: the click handler reads the requested direction off the header's
current marking — unmarked requests ASC, ascending requests DESC, descending
requests ASC — and every marking yields ASC or DESC, never an unsorted
request. -/
theorem click_toggle_cycle :
    clickDirection .unmarked = "ASC" ∧ clickDirection .asc = "DESC" ∧
      clickDirection .desc = "ASC" ∧
      ∀ m : HeaderMark, clickDirection m = "ASC" ∨ clickDirection m = "DESC" := by
  refine ⟨rfl, rfl, rfl, ?_⟩
  intro m
  cases m <;> simp [clickDirection]

/-- The local text-column table of the C8 scenario: rows Bob, alice, Carl with
an ascending text sort active. -/
def c8St : TableState :=
  { columns := [{ name := "v", index := 0, sorter := sorters "text", direction := none }],
    rows := [⟨[.str "Bob"]⟩, ⟨[.str "alice"]⟩, ⟨[.str "Carl"]⟩],
    ajaxEnabled := false,
    o := { enabled := true, column := some 0, direction := some "ASC" },
    requestData := ⟨none, none⟩ }

/-- C8: the text sorter returns only -1, 0 or 1; on two strings it is the
lexicographic comparison of their lower-cased forms; lower-casing touches only
string operands; and the predraw reorder of the rows Bob, alice, Carl
ascending by a text column yields alice, Bob, Carl. -/
theorem text_sorter_case_insensitive :
    (∀ a b, textSorter a b = -1 ∨ textSorter a b = 0 ∨ textSorter a b = 1) ∧
    (∀ s t : String, textSorter (.str s) (.str t) =
        if strLower s = strLower t then 0
        else if strLt (strLower s) (strLower t) then -1 else 1) ∧
    (∀ n : Int, jsToLower (.num n) = .num n) ∧ jsToLower .undefined = .undefined ∧
    predrawRows c8St = [⟨[.str "alice"]⟩, ⟨[.str "Bob"]⟩, ⟨[.str "Carl"]⟩] := by
  refine ⟨?_, ?_, fun n => rfl, rfl, ?_⟩
  · intro a b
    unfold textSorter
    split_ifs <;> simp
  · intro s t
    simp only [textSorter, jsToLower, jsStrictEq, jsLt, beq_iff_eq, decide_eq_true_eq]
  · decide

/-- C1: for a locally-sourced table with sorting enabled, a resolved column
and a non-null direction, every adjacent row pair of the predraw result is
ordered by the column's comparator on that column's cell values — ascending
with the comparator applied as `sorter(a, b)`, descending with the operands
swapped, `sorter(b, a)`, the comparator itself never inverted. The comparator
is assumed consistent (total), as the sorter contract requires. -/
theorem predraw_sorts_adjacent_pairs (st : TableState) (ci : Nat) (col : Column)
    (hen : st.o.enabled = true) (haj : st.ajaxEnabled = false)
    (hcol : st.o.column = some ci) (hget : st.columns[ci]? = some col)
    (htot : ∀ a b, col.sorter a b ≤ 0 ∨ col.sorter b a ≤ 0) :
    (st.o.direction = some "ASC" →
      List.Chain'
        (fun a b => col.sorter (cellValue a col.index) (cellValue b col.index) ≤ 0)
        (predrawRows st)) ∧
    (st.o.direction = some "DESC" →
      List.Chain'
        (fun a b => col.sorter (cellValue b col.index) (cellValue a col.index) ≤ 0)
        (predrawRows st)) := by
  constructor
  · intro hdir
    unfold predrawRows
    rw [hcol, hdir]
    simp only [hen, haj, hget]
    rw [if_neg (by simp)]
    exact chain'_insertionSort _
      (fun a b => htot (cellValue a col.index) (cellValue b col.index)) st.rows
  · intro hdir
    unfold predrawRows
    rw [hcol, hdir]
    simp only [hen, haj, hget]
    rw [if_neg (by simp)]
    exact chain'_insertionSort _
      (fun a b => htot (cellValue b col.index) (cellValue a col.index)) st.rows

/-- The local numeric table used as the C1 witness. -/
def c1St : TableState :=
  { columns := [{ name := "n", index := 0, sorter := numberSorter, direction := none }],
    rows := [⟨[.num 3]⟩, ⟨[.num 1]⟩, ⟨[.num 2]⟩],
    ajaxEnabled := false,
    o := { enabled := true, column := some 0, direction := some "ASC" },
    requestData := ⟨none, none⟩ }

/-- The number sorter is a consistent (total) comparator. -/
theorem numberSorter_total : ∀ a b, numberSorter a b ≤ 0 ∨ numberSorter b a ≤ 0 := by
  intro a b
  cases a <;> cases b <;> simp only [numberSorter] <;> omega

/-- Witness for C1 at a concrete three-row numeric table sorted ascending. -/
theorem predraw_sorts_adjacent_pairs_witness :
    List.Chain' (fun a b => numberSorter (cellValue a 0) (cellValue b 0) ≤ 0)
      (predrawRows c1St) :=
  (predraw_sorts_adjacent_pairs c1St 0
    { name := "n", index := 0, sorter := numberSorter, direction := none }
    rfl rfl rfl rfl numberSorter_total).1 rfl

/-- The one-column table of the C3 counterexample: before the call exactly one
column carries a direction. -/
def c3St : TableState :=
  { columns := [{ name := "a", index := 0, sorter := textSorter, direction := some "ASC" }],
    rows := [],
    ajaxEnabled := false,
    o := { enabled := true, column := some 0, direction := some "ASC" },
    requestData := ⟨none, none⟩ }

/-- The state after sorting `c3St` by a non-existent column name. -/
def c3Out : TableState :=
  { columns := [{ name := "a", index := 0, sorter := textSorter, direction := none }],
    rows := [],
    ajaxEnabled := false,
    o := { enabled := true, column := none, direction := some "ASC" },
    requestData := ⟨none, none⟩ }

/-- C3 counterexample: a successful (non-cancelled, completed, post-event
raised) sort whose column reference resolves to no column leaves ZERO columns
with a non-null direction, not exactly one. -/
theorem successful_sort_zero_directions :
    sort c3St (.byName "zzz") (some "ASC") noListener = .resolved c3Out true ∧
      c3Out.columns.countP (fun c => c.direction.isSome) = 0 := by
  exact ⟨rfl, rfl⟩

/-- C3 as amended: after a non-cancelled completed sort, at most one column has
a non-null direction — exactly one when the committed column resolved, zero
when it did not — and the initial UI-state resolution `_generate` likewise
leaves at most one column with a non-null direction. -/
theorem sort_direction_exclusivity (st : TableState) (column : ColRef)
    (dir : Option String) (redraw : Bool) (listener : Listener) (st' : TableState)
    (h : _sort st column dir redraw listener = .resolved st' true) :
    st'.columns.countP (fun c => c.direction.isSome) ≤ 1 ∧
    (st'.o.column = none → st'.columns.countP (fun c => c.direction.isSome) = 0) ∧
    (∀ i, st'.o.column = some i → st'.columns.countP (fun c => c.direction.isSome) = 1) ∧
    (∀ (s : TableState) (oc : Option ColRef) (od : Option String),
      (_generate s oc od).columns.countP (fun c => c.direction.isSome) ≤ 1) := by
  obtain ⟨hcol, hdir, hcols⟩ := _sort_resolved_inv st column dir redraw listener st' h
  refine ⟨?_, ?_, ?_, ?_⟩
  · rw [hcols]
    exact applyDirections_countP_le_one _ _ _ _
  · intro hnone
    rw [hcols, hnone]
    exact applyDirections_countP_noTarget _ _ _
  · intro i hi
    have hlt : i < st.columns.length := columnsGetObj_lt _ _ _ (hcol.symm.trans hi)
    rw [hcols, hi, hdir, applyDirections_countP_some,
      if_pos (⟨by omega, by omega⟩ : 0 ≤ i ∧ i < 0 + st.columns.length)]
  · intro s oc od
    unfold _generate
    exact applyDirections_countP_le_one _ _ _ _

/-- The state after sorting `c3St` by its existing column. -/
def c3Out2 : TableState :=
  { columns := [{ name := "a", index := 0, sorter := textSorter, direction := some "ASC" }],
    rows := [],
    ajaxEnabled := false,
    o := { enabled := true, column := some 0, direction := some "ASC" },
    requestData := ⟨none, none⟩ }

/-- Witness for the amended C3: a concrete resolved sort leaves exactly one
column with a non-null direction. -/
theorem sort_direction_exclusivity_witness :
    c3Out2.columns.countP (fun c => c.direction.isSome) = 1 :=
  (sort_direction_exclusivity c3St (.byName "a") none true noListener c3Out2 rfl).2.2.1 0 rfl

/-- The remote one-column table of the C5 counterexample, with no active
column. -/
def c5St : TableState :=
  { columns := [{ name := "a", index := 0, sorter := textSorter, direction := none }],
    rows := [⟨[.str "x"]⟩],
    ajaxEnabled := true,
    o := { enabled := true, column := none, direction := some "ASC" },
    requestData := ⟨none, none⟩ }

/-- C5 counterexample: with sorting enabled in remote mode, a sort whose
column reference resolves to no column is NOT a silent no-op — the
request-population hook dereferences the null column and throws, and the
error escapes to the caller. -/
theorem unresolved_column_preajax_raises :
    sort c5St (.byName "zzz") (some "ASC") noListener = .errored ∧
      preajax c5St ⟨none, none⟩ = none := by
  exact ⟨rfl, rfl⟩

/-- C5 as amended: a null active column is treated as "no active sort" by the
local reorder path, which skips the comparison step without raising; the
remote request-population path, however, raises a TypeError when sorting is
enabled (and only skips when sorting is disabled). -/
theorem unresolved_column_skips_reorder (st : TableState) (d : RequestData)
    (h : st.o.column = none) :
    predrawRows st = st.rows ∧
      (st.o.enabled = true → preajax st d = none) ∧
      (st.o.enabled = false → preajax st d = some d) := by
  refine ⟨?_, ?_, ?_⟩
  · unfold predrawRows
    rw [h]
  · intro he
    simp [preajax, he, h]
  · intro he
    simp [preajax, he]

/-- Witness for the amended C5 at the concrete remote table. -/
theorem unresolved_column_skips_reorder_witness :
    predrawRows c5St = c5St.rows ∧ preajax c5St ⟨none, none⟩ = none := by
  have h := unresolved_column_skips_reorder c5St ⟨none, none⟩ rfl
  exact ⟨h.1, h.2.1 rfl⟩

/-- A non-cancelled `sort` commits the options from the listener-returned
sorter and hands over to the update cycle, then rewrites the column
directions and raises the changed event. -/
theorem _sort_not_cancelled (st : TableState) (column : ColRef) (dir : Option String)
    (listener : Listener)
    (h : (listener ⟨columnsGet st.columns column, _direction dir⟩).1 = false) :
    sort st column dir listener =
      (match update ({ st with
          o := { enabled := st.o.enabled,
                 column := columnsGetObj st.columns
                   (listener ⟨columnsGet st.columns column, _direction dir⟩).2.column,
                 direction := some (_direction (some
                   (listener ⟨columnsGet st.columns column, _direction dir⟩).2.direction)) } })
        with
        | none => SortOutcome.errored
        | some st2 =>
          .resolved
            { st2 with columns := applyDirections st2.o.direction st2.o.column 0 st2.columns }
            true) := by
  simp only [sort, _sort, h]
  simp

/-- The update cycle in remote mode with sorting enabled and a resolved active
column: the outgoing request is populated from the column's name and the
current direction, nothing else changes. -/
theorem update_ajax (st : TableState) (haj : st.ajaxEnabled = true)
    (hen : st.o.enabled = true) (i : Nat) (col : Column)
    (hcol : st.o.column = some i) (hget : st.columns[i]? = some col) :
    update st = some { st with requestData :=
      { sortColumn := some col.name, sortDirection := st.o.direction } } := by
  unfold update preajax
  rw [if_pos haj, if_neg (by simp [hen]), hcol]
  simp only [hget]
  rfl

/-- C6: in remote mode a non-cancelled sort leaves the row sequence untouched
and the outgoing request of the triggered refresh carries the sort column's
name and the direction. -/
theorem remote_sort_populates_request (st : TableState) (i : Nat) (col : Column)
    (haj : st.ajaxEnabled = true) (hen : st.o.enabled = true)
    (hfind : columnsGet st.columns (.byName "price") = some i)
    (hget : st.columns[i]? = some col) (hname : col.name = "price") :
    ∃ st', sort st (.byName "price") (some "DESC") noListener = .resolved st' true ∧
      st'.rows = st.rows ∧
      st'.requestData.sortColumn = some "price" ∧
      st'.requestData.sortDirection = some "DESC" := by
  have hlt : i < st.columns.length := by
    by_contra hc
    rw [List.getElem?_eq_none (by omega)] at hget
    exact Option.noConfusion hget
  refine ⟨{ st with
      o := { enabled := st.o.enabled, column := some i, direction := some "DESC" },
      requestData := { sortColumn := some col.name, sortDirection := some "DESC" },
      columns := applyDirections (some "DESC") (some i) 0 st.columns },
    ?_, rfl, ?_, rfl⟩
  · rw [_sort_not_cancelled st (.byName "price") (some "DESC") noListener rfl]
    simp only [noListener]
    rw [hfind]
    simp only [columnsGetObj, if_pos hlt]
    have hu := update_ajax
      { st with
          o := { enabled := st.o.enabled,
                 column := some i,
                 direction := some (_direction (some (_direction (some "DESC")))) } }
      haj hen i col rfl hget
    rw [hu]
    rfl
  · show some col.name = some "price"
    rw [hname]

/-- The remote "price" table of the C6 witness. -/
def c6St : TableState :=
  { columns := [{ name := "price", index := 0, sorter := numberSorter, direction := none }],
    rows := [⟨[.num 5]⟩, ⟨[.num 2]⟩],
    ajaxEnabled := true,
    o := { enabled := true, column := none, direction := none },
    requestData := ⟨none, none⟩ }

/-- Witness for C6 at the concrete remote table. -/
theorem remote_sort_populates_request_witness :
    ∃ st', sort c6St (.byName "price") (some "DESC") noListener = .resolved st' true ∧
      st'.rows = c6St.rows ∧
      st'.requestData.sortColumn = some "price" ∧
      st'.requestData.sortDirection = some "DESC" :=
  remote_sort_populates_request c6St 0
    { name := "price", index := 0, sorter := numberSorter, direction := none }
    rfl rfl rfl rfl rfl

/-- A listener that mutates the sorter's direction to DESC without cancelling. -/
def mutListener : Listener := fun s => (false, { s with direction := "DESC" })

/-- The local one-column table of the C7 counterexample. -/
def c7St : TableState :=
  { columns := [{ name := "a", index := 0, sorter := textSorter, direction := none }],
    rows := [],
    ajaxEnabled := false,
    o := { enabled := true, column := none, direction := none },
    requestData := ⟨none, none⟩ }

/-- The state `c7St` reaches when a sort requested as ASC is mutated to DESC
by a listener. -/
def c7Out : TableState :=
  { columns := [{ name := "a", index := 0, sorter := textSorter, direction := some "DESC" }],
    rows := [],
    ajaxEnabled := false,
    o := { enabled := true, column := some 0, direction := some "DESC" },
    requestData := ⟨none, none⟩ }

/-- C7 counterexample: a non-cancelling listener that mutates the sorter makes
the committed `SortConfig.direction` differ from the direction resolved from
the caller's arguments — the protocol is not cancellation-only. -/
theorem listener_can_mutate_sorter :
    sort c7St (.byName "a") (some "ASC") mutListener = .resolved c7Out true ∧
      c7Out.o.direction ≠ some (_direction (some "ASC")) := by
  refine ⟨rfl, ?_⟩
  decide

/-- C7 as amended: the pre-sort notification supports cancellation AND in-place
mutation of the sorter; for every non-cancelled completed sort the committed
`SortConfig.column` and `SortConfig.direction` are re-resolved from the
listener-returned sorter — which equals the caller-resolved sorter exactly
when no listener mutates it. -/
theorem commit_follows_listener_sorter (st : TableState) (column : ColRef)
    (dir : Option String) (redraw : Bool) (listener : Listener) (st' : TableState)
    (h : _sort st column dir redraw listener = .resolved st' true) :
    st'.o.column =
      columnsGetObj st.columns
        (listener ⟨columnsGet st.columns column, _direction dir⟩).2.column ∧
    st'.o.direction =
      some (_direction
        (some (listener ⟨columnsGet st.columns column, _direction dir⟩).2.direction)) := by
  obtain ⟨hcol, hdir, _⟩ := _sort_resolved_inv st column dir redraw listener st' h
  exact ⟨hcol, hdir⟩

/-- The state `c7St` reaches when sorted ascending with a non-mutating
listener. -/
def c7OutB : TableState :=
  { columns := [{ name := "a", index := 0, sorter := textSorter, direction := some "ASC" }],
    rows := [],
    ajaxEnabled := false,
    o := { enabled := true, column := some 0, direction := some "ASC" },
    requestData := ⟨none, none⟩ }

/-- Witness for the amended C7: with the non-mutating listener the committed
options equal the values resolved from the caller's arguments. -/
theorem commit_follows_listener_sorter_witness :
    c7OutB.o.column =
      columnsGetObj c7St.columns
        (noListener ⟨columnsGet c7St.columns (.byName "a"), _direction (some "ASC")⟩).2.column ∧
    c7OutB.o.direction =
      some (_direction
        (some (noListener
          ⟨columnsGet c7St.columns (.byName "a"), _direction (some "ASC")⟩).2.direction)) :=
  commit_follows_listener_sorter c7St (.byName "a") (some "ASC") true noListener c7OutB rfl

/-- C10: with the global sorting flag disabled, the public `sort` is not
short-circuited — if the (still-raised) pre-sort notification is not
cancelled, it commits `SortConfig.column` and `SortConfig.direction` from the
caller's arguments, rewrites every column's direction field, and raises the
post-sort notification — while the guarded `predraw`/`preajax` hooks stay
no-ops, so the row order and the outgoing request are untouched. -/
theorem disabled_sort_still_commits (st : TableState) (column : ColRef)
    (dir : Option String) (hdis : st.o.enabled = false) :
    ∃ st', sort st column dir noListener = .resolved st' true ∧
      st'.o.column = columnsGetObj st.columns (columnsGet st.columns column) ∧
      st'.o.direction = some (_direction dir) ∧
      (∀ j c, st'.columns[j]? = some c →
        c.direction = if st'.o.column = some j then st'.o.direction else none) ∧
      st'.rows = st.rows ∧
      st'.requestData = st.requestData := by
  have hnorm : _direction (some (_direction dir)) = _direction dir := by
    cases dir with
    | none => rfl
    | some s =>
      by_cases hs : s = "ASC" ∨ s = "DESC"
      · rw [show _direction (some s) = s from by simp [_direction, hs]]
        simp [_direction, hs]
      · rw [show _direction (some s) = "ASC" from by simp [_direction, hs]]
        rfl
  refine ⟨{ st with
      o := { enabled := st.o.enabled,
             column := columnsGetObj st.columns (columnsGet st.columns column),
             direction := some (_direction dir) },
      columns := applyDirections (some (_direction dir))
        (columnsGetObj st.columns (columnsGet st.columns column)) 0 st.columns },
    ?_, rfl, rfl, ?_, rfl, rfl⟩
  · rw [_sort_not_cancelled st column dir noListener rfl]
    simp only [noListener]
    rw [hnorm]
    have hdis2 : ({ st with
        o := { enabled := st.o.enabled,
               column := columnsGetObj st.columns (columnsGet st.columns column),
               direction := some (_direction dir) } } : TableState).o.enabled = false := hdis
    rw [update_disabled _ hdis2]
  · intro j c hjc
    rw [applyDirections_getElem?] at hjc
    cases hsome : st.columns[j]? with
    | none => rw [hsome] at hjc; exact Option.noConfusion hjc
    | some c0 =>
      rw [hsome] at hjc
      simp only [Option.map, Option.some.injEq] at hjc
      subst hjc
      simp only [Nat.zero_add]
      split_ifs with ht
      · rfl
      · rfl

/-- The disabled-sorting table of the C10 witness. -/
def c10St : TableState :=
  { columns := [{ name := "a", index := 0, sorter := textSorter, direction := none }],
    rows := [⟨[.str "b"]⟩, ⟨[.str "a"]⟩],
    ajaxEnabled := false,
    o := { enabled := false, column := none, direction := none },
    requestData := ⟨none, none⟩ }

/-- Witness for C10 at a concrete disabled table. -/
theorem disabled_sort_still_commits_witness :
    ∃ st', sort c10St (.byName "a") (some "DESC") noListener = .resolved st' true ∧
      st'.o.column = columnsGetObj c10St.columns (columnsGet c10St.columns (.byName "a")) ∧
      st'.o.direction = some (_direction (some "DESC")) ∧
      (∀ j c, st'.columns[j]? = some c →
        c.direction = if st'.o.column = some j then st'.o.direction else none) ∧
      st'.rows = c10St.rows ∧
      st'.requestData = c10St.requestData :=
  disabled_sort_still_commits c10St (.byName "a") (some "DESC") rfl

end FooTable
